import Mathlib

/-!
Verification of the noise-robust OCR pipeline's decision layer.

Python strings are embedded as `List Char` (`Str`).  Python values that may
or may not be strings are embedded as `PyVal`.  Regular-expression scans are
embedded as explicit left-to-right scanners with the exact greedy /
backtracking behaviour of the patterns used by the source (all the patterns
involved are simple enough that greedy matching with the local boundary
checks below coincides with the backtracking engine's result; this is argued
case by case in the doc comments).  Scanners take a fuel argument equal to
the length of the scanned string: every step consumes at least one character,
so the fuel is never exhausted and the scan is the unbounded one.
-/

/-- Python `str` values: a list of characters. -/
abbrev Str := List Char

/-- A Python value that is a string or something else (`None`, a number, ...).
Used to embed functions whose Python signature accepts any object. -/
inductive PyVal where
  | pstr (s : Str)
  | other
deriving DecidableEq

/-- Characters on which Python `str.splitlines` splits. -/
def isLineBreak (c : Char) : Bool :=
  c = '\n' || c = '\r' || c = '\x0b' || c = '\x0c' ||
  c = '\x1c' || c = '\x1d' || c = '\x1e' || c = '\u0085' || c = '\u2028' || c = '\u2029'

/-- Characters Python treats as whitespace (`str.strip`, regex `\s`):
the line-break characters together with space, tab and unit separator. -/
def isPyWs (c : Char) : Bool :=
  c = ' ' || c = '\t' || c = '\x1f' || isLineBreak c

/-- Regex word character (`\w`), deciding `\b` boundaries. -/
def isWordChar (c : Char) : Bool := c.isAlphanum || c = '_'

/-- Horizontal whitespace, the `[ \t]` character class. -/
def isSpaceTab (c : Char) : Bool := c = ' ' || c = '\t'

/-- Python `str.strip()`: drop whitespace from both ends. -/
def pyStrip (s : Str) : Str :=
  ((s.dropWhile isPyWs).reverse.dropWhile isPyWs).reverse

/-- Worker for `splitlines`: `cur` is the reversed current line.  At a line
break the line so far is emitted; a `\r` directly followed by `\n` consumes
both characters as one boundary; a break at the very end adds no line.  The
fuel argument (at least the input's length, so never exhausted) makes the
recursion structural. -/
def splitlinesGo : Nat → Str → Str → List Str
  | _, cur, [] => [cur.reverse]
  | 0, cur, s => [cur.reverse ++ s]
  | fuel + 1, cur, c :: t =>
    if isLineBreak c then
      if c = '\r' && t.headD 'x' = '\n' then
        cur.reverse :: (if t.tail = [] then [] else splitlinesGo fuel [] t.tail)
      else
        cur.reverse :: (if t = [] then [] else splitlinesGo fuel [] t)
    else splitlinesGo fuel (c :: cur) t

/-- Python `str.splitlines()`: split at line boundaries (`\r\n` counts once),
a trailing break adds no empty line, and the empty string gives no lines. -/
def splitlines (s : Str) : List Str :=
  if s = [] then [] else splitlinesGo s.length [] s

/-- Python `text.replace(",", ".")`. -/
def commaToDot (s : Str) : Str := s.map fun c => if c = ',' then '.' else c

/-- Python `str.upper()` (ASCII case mapping, as `Char.toUpper`). -/
def upperL (s : Str) : Str := s.map Char.toUpper

/-- Python `needle in hay` on strings: contiguous-substring test. -/
def isSubstr (needle : Str) : Str → Bool
  | [] => needle.isEmpty
  | c :: t => needle.isPrefixOf (c :: t) || isSubstr needle t

/-- Whether the scan position in front of `s` satisfies a trailing `\b`
after a word character: the next character, if any, is not a word character. -/
def headNotWord : Str → Bool
  | [] => true
  | c :: _ => !isWordChar c

/-- `src/app/text_cleaning.py::_preserve_case`, translated from the source. -/
def _preserve_case (original corrected : Str) : Str :=
  if corrected = [] then original
  else if (original.any fun c => c.isUpper || c.isLower) &&
          (original.all fun c => !c.isLower) then
    upperL corrected
  else if (original.headD ' ').isUpper then
    match corrected with
    | [] => []
    | c :: t => c.toUpper :: t.map Char.toLower
  else corrected

/-- The body of the inner `repl` closure of
`src/app/text_cleaning.py::correct_with_lexicon`, translated from the source:
how one `[A-Za-z]{3,}` token would be corrected.  The dictionary handle `sym`
is abstracted as its `lookup` function returning the TOP suggestion. -/
def correct_token (lookup : Str → Option Str) (w : Str) : Str :=
  if w.any Char.isDigit then w
  else if (w.any fun c => c.isUpper || c.isLower) && (w.all fun c => !c.isLower) then w
  else if w.length < 4 then w
  else match lookup (w.map Char.toLower) with
    | none => w
    | some best => _preserve_case w best

/-- `src/app/text_cleaning.py::correct_with_lexicon`, translated from the
source.  The Python function defines the inner closure `repl` (embedded above
as `correct_token`) but never applies it: the body contains no call to
`_WORD_RE.sub` and no `return` statement, so control falls off the end of the
function and Python returns `None`.  `Option Str` embeds "a string or None". -/
def correct_with_lexicon (_text : Str) (_sym : Str → Option Str)
    (_max_edit_distance : Nat := 2) : Option Str :=
  none

/-- C1: the claim states that `correct_with_lexicon(text, sym)` returns a
string equal to `text` with correctable tokens replaced.  The source instead
returns Python `None` for every input, because the function body builds the
`repl` closure but never invokes `re.sub` and ends without a `return`.  This
theorem evaluates the embedded code: the result is `none` (Python `None`),
never a string, for every text and every loaded dictionary handle. -/
theorem claim_C1_correct_with_lexicon_always_returns_None
    (text : Str) (sym : Str → Option Str) (d : Nat) :
    correct_with_lexicon text sym d = none := rfl

/-- `src/app/extract_fields.py::_safe_text`: the string itself, or `""` for a
non-string value. -/
def _safe_text : PyVal → Str
  | .pstr s => s
  | .other => []

/-- Worker for `_dedup_preserve_order`: `out` is the list built so far. -/
def dedupAux (out : List Str) : List Str → List Str
  | [] => out
  | x :: xs => if x ∈ out then dedupAux out xs else dedupAux (out ++ [x]) xs

/-- `src/app/extract_fields.py::_dedup_preserve_order`. -/
def _dedup_preserve_order (items : List Str) : List Str := dedupAux [] items

/-- One attempted match of `MONEY_RE = \b(\d{1,6}[.,]\d{2})\b` at the front of
`s` (the leading `\b` is checked by the caller).  `\d{1,6}` is greedy, and
digits are word characters, so the regex matches here exactly when the maximal
digit run at the front has length 1..6, is followed by `.` or `,` and then by
exactly two digits with a `\b` after them: any shorter split of the digit runs
puts a digit where the separator or the trailing boundary must be.
Returns the matched group and the rest of the string. -/
def tryMoney (s : Str) : Option (Str × Str) :=
  let ds := s.takeWhile Char.isDigit
  let r1 := s.dropWhile Char.isDigit
  if ds = [] || 6 < ds.length then none
  else match r1 with
    | sep :: r2 =>
      if sep = '.' || sep = ',' then
        let es := r2.takeWhile Char.isDigit
        let r3 := r2.dropWhile Char.isDigit
        if es.length = 2 && headNotWord r3 then some (ds ++ sep :: es, r3) else none
      else none
    | [] => none

/-- `MONEY_RE.finditer`: scan left to right, attempting a match at each
position whose left context satisfies `\b` (start of string or a non-word
character, tracked by `prevW` = previous character is a word character); a
match is emitted and the scan resumes after it (its last character is a
digit, hence a word character). -/
def moneyScan : Nat → Bool → Str → List Str
  | 0, _, _ => []
  | _ + 1, _, [] => []
  | fuel + 1, prevW, c :: t =>
    if prevW then moneyScan fuel (isWordChar c) t
    else match tryMoney (c :: t) with
      | some (grp, rest) => grp :: moneyScan fuel true rest
      | none => moneyScan fuel (isWordChar c) t

/-- All matches of `MONEY_RE` in `s`, in scan order. -/
def moneyFind (s : Str) : List Str := moneyScan s.length false s

/-- `TIMEISH_RE.fullmatch`: whether the whole string matches
`\b([01]?\d|2[0-3])[:.][0-5]\d\b`.  A full match consumes a 1- or 2-character
hour, one separator and exactly two minute characters, so only strings of
length 4 or 5 can match; the boundary `\b` at each end holds because the
outer characters must be digits. -/
def timeish : Str → Bool
  | [h, sep, m1, m2] =>
    h.isDigit && (sep = ':' || sep = '.') &&
      (('0' ≤ m1 && m1 ≤ '5') && m2.isDigit)
  | [h1, h2, sep, m1, m2] =>
    (((h1 = '0' || h1 = '1') && h2.isDigit) || (h1 = '2' && ('0' ≤ h2 && h2 ≤ '3'))) &&
      ((sep = ':' || sep = '.') && (('0' ≤ m1 && m1 ≤ '5') && m2.isDigit))
  | _ => false

/-- One attempted match of the first date pattern
`\b(\d{2}[/ -]\d{2}[/ -]\d{2,4})\b (the separator class is slash-or-dash)` at the front of `s` (leading `\b` checked by
the caller).  The exact counts `\d{2}` admit no backtracking, and the greedy
`\d{2,4}` followed by `\b` matches exactly when the maximal digit run after
the second separator has length 2..4 and is followed by a non-word character
or the end. -/
def tryDate1 (s : Str) : Option Str :=
  match s with
  | a :: b :: sep1 :: c :: d :: sep2 :: rest =>
    if a.isDigit && b.isDigit && (sep1 = '/' || sep1 = '-') &&
        (c.isDigit && d.isDigit && (sep2 = '/' || sep2 = '-')) then
      let ys := rest.takeWhile Char.isDigit
      let r := rest.dropWhile Char.isDigit
      if (2 ≤ ys.length && ys.length ≤ 4) && headNotWord r then
        some (a :: b :: sep1 :: c :: d :: sep2 :: ys)
      else none
    else none
  | _ => none

/-- One attempted match of the second date pattern
`\b(\d{4}[/ -]\d{2}[/ -]\d{2})\b (slash-or-dash separators)` at the front of `s`: all counts exact, with a
trailing boundary. -/
def tryDate2 (s : Str) : Option Str :=
  match s with
  | a :: b :: c :: d :: sep1 :: e1 :: e2 :: sep2 :: g1 :: g2 :: rest =>
    if (a.isDigit && b.isDigit && c.isDigit && d.isDigit) &&
        ((sep1 = '/' || sep1 = '-') && e1.isDigit && e2.isDigit) &&
        ((sep2 = '/' || sep2 = '-') && g1.isDigit && g2.isDigit && headNotWord rest) then
      some [a, b, c, d, sep1, e1, e2, sep2, g1, g2]
    else none
  | _ => none

/-- `re.search` for a pattern starting with `\b\d`: try the attempt at every
position whose left context satisfies `\b`, left to right, returning the
first match's group. -/
def searchScan (attempt : Str → Option Str) : Nat → Bool → Str → Option Str
  | 0, _, _ => none
  | _ + 1, _, [] => none
  | fuel + 1, prevW, c :: t =>
    match if prevW then none else attempt (c :: t) with
    | some g => some g
    | none => searchScan attempt fuel (isWordChar c) t

/-- `re.search(pat, s)` with the scanners above. -/
def reSearch (attempt : Str → Option Str) (s : Str) : Option Str :=
  searchScan attempt s.length false s

/-- `src/app/extract_fields.py::extract_date`, translated from the source:
uppercase the safe text, return the first match of the first date pattern, else
of the second, else `None`. -/
def extract_date (text : PyVal) : Option Str :=
  let t := upperL (_safe_text text)
  if t = [] then none
  else match reSearch tryDate1 t with
    | some g => some g
    | none => reSearch tryDate2 t

/-- `src/app/extract_fields.py::TOTAL_LINE_HINTS`, in source (priority) order. -/
def TOTAL_LINE_HINTS : List Str :=
  ["ROUNDED TOTAL".toList, "TOTAL AMT PAYABLE".toList, "AMT PAYABLE".toList,
   "AMOUNT PAYABLE".toList, "TOTAL PAYABLE".toList, "TOTAL:".toList, "TOTAL".toList,
   "SUB TOTAL".toList, "SUBTOTAL".toList, "CASH".toList, "CHANGE".toList]

/-- `src/app/extract_fields.py::MERCHANT_BAD` (a Python set; order is
irrelevant because it is only used through `any`). -/
def MERCHANT_BAD : List Str :=
  ["TOTAL".toList, "SUBTOTAL".toList, "SUB TOTAL".toList, "INVOICE".toList,
   "TAX".toList, "GST".toList, "THANK".toList, "CHANGE".toList, "CASH".toList,
   "AMOUNT".toList, "PAYABLE".toList, "DATE".toList, "TEL".toList, "FAX".toList,
   "EMAIL".toList]

/-- The money values one line contributes in phase 1 of `extract_totals`:
every `MONEY_RE` match of the comma-normalized line, comma-normalized again
(as the source does), with time-shaped values skipped. -/
def lineMoneyVals (ln : Str) : List Str :=
  ((moneyFind (commaToDot ln)).map commaToDot).filter fun v => !timeish v

/-- The line list `extract_totals` works on: stripped non-empty lines, or the
stripped raw text as a single line when that list is empty. -/
def totalsLines (raw : Str) : List Str :=
  let ls := ((splitlines raw).map pyStrip).filter fun l => l ≠ []
  if ls = [] then [pyStrip raw] else ls

/-- Phase 1 of `extract_totals`, before deduplication: for each hint in
priority order, for each line in original order whose uppercased content
contains the hint, that line's money values. -/
def phase1Candidates (raw : Str) : List Str :=
  TOTAL_LINE_HINTS.flatMap fun hint =>
    (totalsLines raw).flatMap fun ln =>
      if isSubstr hint (upperL ln) then lineMoneyVals ln else []

/-- Phase 2 of `extract_totals`, before deduplication: every `MONEY_RE` match
of the comma-normalized whole text, with time-shaped values skipped. -/
def phase2Candidates (raw : Str) : List Str :=
  (moneyFind (commaToDot raw)).filter fun v => !timeish v

/-- `src/app/extract_fields.py::extract_totals`, translated from the source. -/
def extract_totals (text : PyVal) : List Str :=
  let raw := _safe_text text
  if pyStrip raw = [] then []
  else
    let candidates := _dedup_preserve_order (phase1Candidates raw)
    if candidates = [] then _dedup_preserve_order (phase2Candidates raw)
    else candidates

/-- The line loop of `guess_merchant`: skip a line whose uppercased form
contains a blacklisted word or which has fewer than 3 alphabetic characters;
return the first surviving line truncated to 60 characters. -/
def merchantLoop : List Str → Option Str
  | [] => none
  | ln :: rest =>
    if MERCHANT_BAD.any fun bad => isSubstr bad (upperL ln) then merchantLoop rest
    else if 3 ≤ ln.countP Char.isAlpha then some (ln.take 60)
    else merchantLoop rest

/-- `src/app/extract_fields.py::guess_merchant`, translated from the source. -/
def guess_merchant (text : PyVal) : Option Str :=
  let t := _safe_text text
  if pyStrip t = [] then none
  else
    let lines := ((splitlines t).map pyStrip).filter fun l => l ≠ []
    if lines = [] then
      let t2 := pyStrip t
      if t2.any Char.isAlpha then some (t2.take 60) else none
    else merchantLoop (lines.take 12)

/-- Generic embedding of `re.sub(pat, repl, s)` for a pattern with no leading
`\b`: scan left to right; where `attempt` matches it returns the replacement
text and the rest of the string (it always consumes at least one character),
and the scan resumes after the match; elsewhere the character is kept. -/
def subScan (attempt : Str → Option (Str × Str)) : Nat → Str → Str
  | 0, s => s
  | _ + 1, [] => []
  | fuel + 1, c :: t =>
    match attempt (c :: t) with
    | some (emit, rest) => emit ++ subScan attempt fuel rest
    | none => c :: subScan attempt fuel t

/-- `re.sub` with fuel instantiated to the string's length. -/
def reSub (attempt : Str → Option (Str × Str)) (s : Str) : Str :=
  subScan attempt s.length s

/-- Attempted match of `(\d{1,2}):(\d{2});(\d{2})` (the `;` stands for the
one-character class `[;]`) with a two-digit hour, replaced by
`\1:\2:\3`.  The hour `\d{1,2}` is greedy, so this is tried first. -/
def trySubTime2 (s : Str) : Option (Str × Str) :=
  match s with
  | a :: b :: sep1 :: c :: d :: sep2 :: e1 :: e2 :: rest =>
    if (a.isDigit && b.isDigit && sep1 = ':') &&
        (c.isDigit && d.isDigit && sep2 = ';' && e1.isDigit && e2.isDigit) then
      some ([a, b, ':', c, d, ':', e1, e2], rest)
    else none
  | _ => none

/-- The one-digit-hour alternative of the time-repair pattern, tried when the
greedy two-digit attempt fails. -/
def trySubTime1 (s : Str) : Option (Str × Str) :=
  match s with
  | a :: sep1 :: c :: d :: sep2 :: e1 :: e2 :: rest =>
    if (a.isDigit && sep1 = ':') &&
        (c.isDigit && d.isDigit && sep2 = ';' && e1.isDigit && e2.isDigit) then
      some ([a, ':', c, d, ':', e1, e2], rest)
    else none
  | _ => none

/-- Attempted match of the time-repair pattern `(\d{1,2}):(\d{2});(\d{2})`:
greedy two-digit hour first, then the one-digit hour. -/
def trySubTime (s : Str) : Option (Str × Str) :=
  (trySubTime2 s).orElse fun _ => trySubTime1 s

/-- Attempted match of the comma-decimal pattern `(\d)\s*,\s*(\d{2})\b`,
replaced by `\1.\2`.  Both `\s*` are effectively maximal: whitespace never
matches the comma or a digit, so backtracking cannot produce another match. -/
def trySubComma (s : Str) : Option (Str × Str) :=
  match s with
  | a :: r1 =>
    if a.isDigit then
      match r1.dropWhile isPyWs with
      | ',' :: r3 =>
        match r3.dropWhile isPyWs with
        | c :: d :: rest =>
          if c.isDigit && d.isDigit && headNotWord rest then some ([a, '.', c, d], rest)
          else none
        | _ => none
      | _ => none
    else none
  | [] => none

/-- Attempted match of the broken-decimal pattern `(\d)\s*,\.\s*(\d{2})\b`,
replaced by `\1.\2`. -/
def trySubCommaDot (s : Str) : Option (Str × Str) :=
  match s with
  | a :: r1 =>
    if a.isDigit then
      match r1.dropWhile isPyWs with
      | ',' :: '.' :: r3 =>
        match r3.dropWhile isPyWs with
        | c :: d :: rest =>
          if c.isDigit && d.isDigit && headNotWord rest then some ([a, '.', c, d], rest)
          else none
        | _ => none
      | _ => none
    else none
  | [] => none

/-- Attempted match of `\s+([,.;:])`, replaced by `\1`: a maximal whitespace
run directly followed by one of the four punctuation marks (whitespace never
matches the punctuation, so the greedy `\s+` is maximal; if the attempt fails
at one position of a run the scan retries inside the run, which fails the
same way until the run is passed). -/
def trySubPunct (s : Str) : Option (Str × Str) :=
  match s with
  | c :: _ =>
    if isPyWs c then
      match s.dropWhile isPyWs with
      | p :: rest =>
        if p = ',' || p = '.' || p = ';' || p = ':' then some ([p], rest) else none
      | [] => none
    else none
  | [] => none

/-- Attempted match of `[ \t]{2,}`, replaced by a single space: a maximal
space-or-tab run of length at least 2. -/
def tryCollapse (s : Str) : Option (Str × Str) :=
  match s with
  | a :: b :: _ =>
    if isSpaceTab a && isSpaceTab b then some ([' '], s.dropWhile isSpaceTab) else none
  | _ => none

/-- The per-line body of `src/app/text_cleaning.py::clean_ocr_text`: the four
regex repairs in source order, the space-or-tab collapse, then `strip()`. -/
def cleanLine (ln : Str) : Str :=
  pyStrip (reSub tryCollapse
    (reSub trySubPunct (reSub trySubCommaDot (reSub trySubComma (reSub trySubTime ln)))))

/-- Python `"\n".join(ls)`. -/
def joinNL (ls : List Str) : Str := (ls.intersperse ['\n']).flatten

/-- `src/app/text_cleaning.py::clean_ocr_text`, translated from the source:
empty for a non-string or effectively empty input; otherwise clean each line,
drop lines that became empty, rejoin with newlines, and strip the result. -/
def clean_ocr_text (text : PyVal) : Str :=
  match text with
  | .other => []
  | .pstr t =>
    if pyStrip t = [] then []
    else pyStrip (joinNL (((splitlines t).map cleanLine).filter fun l => l ≠ []))

/-- Attempted match of `\s+` for `src/evaluate.py::normalize_text`, replaced
by one space: a maximal whitespace run. -/
def tryWsRun (s : Str) : Option (Str × Str) :=
  match s with
  | c :: _ => if isPyWs c then some ([' '], s.dropWhile isPyWs) else none
  | [] => none

/-- `src/evaluate.py::normalize_text`, translated from the source: uppercase,
strip, collapse whitespace runs to single spaces, keep only `[A-Z0-9 ]`. -/
def normalize_text (s : Str) : Str :=
  (reSub tryWsRun (pyStrip (upperL s))).filter fun c =>
    (('A' ≤ c && c ≤ 'Z') || ('0' ≤ c && c ≤ '9')) || c = ' '

/-- `app.py::mean_conf`, translated from the source, a recognition-results
list abstracted to its `conf` values (exact rational arithmetic stands in for
Python floats throughout the scoring layer). -/
def mean_conf (results : List ℚ) : ℚ :=
  if results = [] then 0 else results.sum / ((max results.length 1 : ℕ) : ℚ)

/-- `app.py::text_quality_score`, translated from the source. -/
def text_quality_score (text : Str) : ℚ :=
  let t := normalize_text text
  if t = [] then 0
  else ((t.countP Char.isAlphanum : ℕ) : ℚ) / ((max t.length 1 : ℕ) : ℚ) +
    ((min t.length 80 : ℕ) : ℚ) / 80

/-- `app.py::blended_score`, translated from the source. -/
def blended_score (conf : ℚ) (text : Str) : ℚ :=
  6 / 10 * conf + 4 / 10 * text_quality_score text

/-- The fields of one preprocessing mode's OCR pass that the auto-mode
selector reads (`app.py::run_ocr_on`'s result dict). -/
structure Outcome where
  mode : Str
  text : Str
  conf : ℚ
  score : ℚ
deriving DecidableEq

/-- `src/preprocess.py::candidate_modes_for_auto`, translated from the source. -/
def candidate_modes_for_auto : List Str :=
  ["none".toList, "clahe".toList, "denoise".toList]

/-- The candidate loop of `app.py::choose_best_auto`.  `run_ocr_on` is the
per-mode evaluation, whose Python call may raise: `Except E Outcome` embeds
"returns an outcome or raises"; the loop has no handler, so an exception
propagates. -/
def autoFold (run_ocr_on : Str → Except E Outcome) (margin : ℚ) :
    Outcome → List Str → Except E Outcome
  | best, [] => .ok best
  | best, m :: ms =>
    if m = "none".toList then autoFold run_ocr_on margin best ms
    else match run_ocr_on m with
      | .error e => .error e
      | .ok out =>
        autoFold run_ocr_on margin
          (if best.score + margin < out.score then out else best) ms

/-- `app.py::choose_best_auto`, translated from the source: evaluate the
baseline mode `none`, then fold the margin rule over
`candidate_modes_for_auto()` skipping `none`. -/
def choose_best_auto (run_ocr_on : Str → Except E Outcome) (margin : ℚ) :
    Except E Outcome :=
  match run_ocr_on ("none".toList) with
  | .error e => .error e
  | .ok baseline => autoFold run_ocr_on margin baseline candidate_modes_for_auto

/-- A concrete baseline outcome for exercising `choose_best_auto`. -/
def baselineOutcome : Outcome :=
  { mode := "none".toList, text := "RECEIPT".toList, conf := 1, score := 1 }

/-- A per-mode evaluation in which the baseline mode succeeds and every other
mode's evaluation raises (modelled as `Except.error ()`). -/
def runCandidatesFail : Str → Except Unit Outcome := fun m =>
  if m = "none".toList then .ok baselineOutcome else .error ()

/-! ## General lemmas about the embedded string and list operations -/

/-- `isSubstr` decides the contiguous-substring (infix) relation. -/
theorem isSubstr_iff_isInfix (n : Str) : ∀ h : Str, isSubstr n h = true ↔ n <:+: h := by
  intro h
  induction h with
  | nil => simp [isSubstr, List.isEmpty_iff]
  | cons c t ih =>
    simp [isSubstr, Bool.or_eq_true, ih, List.infix_cons_iff]

/-- The accumulator of `dedupAux` is a prefix of its result. -/
theorem dedupAux_prefix : ∀ (xs out : List Str), out <+: dedupAux out xs := by
  intro xs
  induction xs with
  | nil => intro out; simp [dedupAux]
  | cons x xs ih =>
    intro out
    by_cases hx : x ∈ out
    · simpa [dedupAux, hx] using ih out
    · simp only [dedupAux, hx, if_neg, not_false_iff]
      exact (List.prefix_append out [x]).trans (ih (out ++ [x]))

/-- `_dedup_preserve_order` returns the empty list only on the empty list. -/
theorem dedup_eq_nil_iff {xs : List Str} : _dedup_preserve_order xs = [] ↔ xs = [] := by
  constructor
  · cases xs with
    | nil => intro _; rfl
    | cons x xs =>
      intro h
      have hpre : [x] <+: dedupAux [x] xs := dedupAux_prefix xs [x]
      have : _dedup_preserve_order (x :: xs) = dedupAux [x] xs := by
        simp [_dedup_preserve_order, dedupAux]
      rw [this] at h
      simp [h] at hpre
  · rintro rfl; rfl

/-- Membership in `dedupAux` comes from the accumulator or the input. -/
theorem mem_dedupAux {a : Str} :
    ∀ (xs out : List Str), a ∈ dedupAux out xs → a ∈ out ∨ a ∈ xs := by
  intro xs
  induction xs with
  | nil => intro out h; exact .inl h
  | cons x xs ih =>
    intro out h
    by_cases hx : x ∈ out
    · rcases ih out (by simpa [dedupAux, hx] using h) with h' | h'
      · exact .inl h'
      · exact .inr (.tail _ h')
    · rcases ih (out ++ [x]) (by simpa [dedupAux, hx] using h) with h' | h'
      · rcases List.mem_append.mp h' with h'' | h''
        · exact .inl h''
        · exact .inr (List.mem_singleton.mp h'' ▸ List.mem_cons_self x xs)
      · exact .inr (.tail _ h')

/-- `dedupAux` keeps its accumulator duplicate-free. -/
theorem nodup_dedupAux :
    ∀ (xs out : List Str), out.Nodup → (dedupAux out xs).Nodup := by
  intro xs
  induction xs with
  | nil => intro out h; exact h
  | cons x xs ih =>
    intro out h
    by_cases hx : x ∈ out
    · simpa [dedupAux, hx] using ih out h
    · simp only [dedupAux, hx, if_neg, not_false_iff]
      exact ih (out ++ [x]) (by simp [List.nodup_append, h, hx])

/-- `_dedup_preserve_order` returns a duplicate-free list. -/
theorem nodup_dedup (xs : List Str) : (_dedup_preserve_order xs).Nodup :=
  nodup_dedupAux xs [] List.nodup_nil

/-- Members of `_dedup_preserve_order xs` are members of `xs`. -/
theorem mem_dedup {a : Str} {xs : List Str} (h : a ∈ _dedup_preserve_order xs) : a ∈ xs := by
  rcases mem_dedupAux xs [] h with h' | h'
  · cases h'
  · exact h'

/-- A string strips to empty exactly when all its characters are whitespace. -/
theorem pyStrip_eq_nil_iff {s : Str} : pyStrip s = [] ↔ ∀ c ∈ s, isPyWs c = true := by
  unfold pyStrip
  simp only [List.reverse_eq_nil_iff, List.dropWhile_eq_nil_iff, List.mem_reverse]
  constructor
  · intro h c hc
    have hc' : c ∈ s.takeWhile isPyWs ++ s.dropWhile isPyWs := by
      rw [List.takeWhile_append_dropWhile]; exact hc
    rcases List.mem_append.mp hc' with h' | h'
    · exact List.mem_takeWhile_imp h'
    · exact h c h'
  · intro h c hc
    exact h c ((List.dropWhile_sublist _).subset hc)

/-- Uppercasing a whitespace character never yields a digit (whitespace
characters are unchanged by `Char.toUpper`). -/
theorem ws_toUpper_not_digit {c : Char} (h : isPyWs c = true) :
    (Char.toUpper c).isDigit = false := by
  have hc : c = ' ' ∨ c = '\t' ∨ c = '\x1f' ∨ c = '\n' ∨ c = '\r' ∨ c = '\x0b' ∨
      c = '\x0c' ∨ c = '\x1c' ∨ c = '\x1d' ∨ c = '\x1e' ∨ c = '\u0085' ∨
      c = '\u2028' ∨ c = '\u2029' := by
    simpa [isPyWs, isLineBreak, Bool.or_eq_true, decide_eq_true_eq, or_assoc] using h
  rcases hc with rfl | rfl | rfl | rfl | rfl | rfl | rfl | rfl | rfl | rfl | rfl | rfl | rfl <;>
    decide

/-- No digit, no line break: whitespace characters are not line breaks'
complement — every line-break character is whitespace. -/
theorem isPyWs_of_isLineBreak {c : Char} (h : isLineBreak c = true) : isPyWs c = true := by
  simp [isPyWs, h]

/-- The first date pattern needs a leading digit. -/
theorem tryDate1_head_not_digit {a : Char} {t : Str} (h : a.isDigit = false) :
    tryDate1 (a :: t) = none := by
  rcases t with _ | ⟨b, t⟩; · rfl
  rcases t with _ | ⟨c, t⟩; · rfl
  rcases t with _ | ⟨d, t⟩; · rfl
  rcases t with _ | ⟨e, t⟩; · rfl
  rcases t with _ | ⟨f, t⟩; · rfl
  simp [tryDate1, h]

/-- The second date pattern needs a leading digit. -/
theorem tryDate2_head_not_digit {a : Char} {t : Str} (h : a.isDigit = false) :
    tryDate2 (a :: t) = none := by
  rcases t with _ | ⟨b, t⟩; · rfl
  rcases t with _ | ⟨c, t⟩; · rfl
  rcases t with _ | ⟨d, t⟩; · rfl
  rcases t with _ | ⟨e, t⟩; · rfl
  rcases t with _ | ⟨f, t⟩; · rfl
  rcases t with _ | ⟨g, t⟩; · rfl
  rcases t with _ | ⟨h8, t⟩; · rfl
  rcases t with _ | ⟨h9, t⟩; · rfl
  rcases t with _ | ⟨h10, t⟩; · rfl
  simp [tryDate2, h]

/-- A search for a pattern that needs a leading digit fails on digit-free
text. -/
theorem searchScan_none (attempt : Str → Option Str)
    (hA : ∀ (a : Char) (t : Str), a.isDigit = false → attempt (a :: t) = none) :
    ∀ (fuel : Nat) (prevW : Bool) (s : Str),
      (∀ c ∈ s, c.isDigit = false) → searchScan attempt fuel prevW s = none := by
  intro fuel
  induction fuel with
  | zero => intro _ _ _; rfl
  | succ n ih =>
    intro prevW s hs
    cases s with
    | nil => rfl
    | cons c t =>
      have hc := hs c (List.mem_cons_self c t)
      have ht : ∀ x ∈ t, x.isDigit = false := fun x hx => hs x (.tail _ hx)
      cases prevW <;> simp [searchScan, hA c t hc, ih _ t ht]

/-- On break-free text the line worker returns a single line. -/
theorem splitlinesGo_no_break :
    ∀ (fuel : Nat) (s cur : Str), s.length ≤ fuel →
      (∀ c ∈ s, isLineBreak c = false) →
      splitlinesGo fuel cur s = [cur.reverse ++ s] := by
  intro fuel
  induction fuel with
  | zero =>
    intro s cur hlen _
    have hs : s = [] := List.length_eq_zero.mp (Nat.le_zero.mp hlen)
    subst hs
    simp [splitlinesGo]
  | succ n ih =>
    intro s cur hlen h
    cases s with
    | nil => simp [splitlinesGo]
    | cons c t =>
      have hc : isLineBreak c = false := h c (List.mem_cons_self c t)
      have ht : ∀ x ∈ t, isLineBreak x = false := fun x hx => h x (.tail _ hx)
      rw [splitlinesGo, if_neg (by simp [hc]),
        ih t (c :: cur) (Nat.le_of_succ_le_succ hlen) ht]
      simp

/-- `splitlines` of a non-empty break-free string is that string alone. -/
theorem splitlines_no_break {s : Str} (hne : s ≠ [])
    (h : ∀ c ∈ s, isLineBreak c = false) : splitlines s = [s] := by
  rw [splitlines, if_neg hne, splitlinesGo_no_break s.length s [] le_rfl h]
  rfl

/-- A list containing a non-whitespace character does not strip to empty. -/
theorem pyStrip_ne_nil_of_mem {l : Str} {c : Char} (hc : c ∈ l) (hws : isPyWs c = false) :
    pyStrip l ≠ [] := by
  intro h
  have := pyStrip_eq_nil_iff.mp h c hc
  simp [hws] at this

/-- A non-whitespace character in the worker's input or accumulator survives
into some emitted line that does not strip to empty. -/
theorem splitlinesGo_exists_nonws :
    ∀ (fuel : Nat) (s cur : Str), s.length ≤ fuel →
      ((∃ c ∈ s, isPyWs c = false) ∨ (∃ c ∈ cur, isPyWs c = false)) →
      ∃ ln ∈ splitlinesGo fuel cur s, pyStrip ln ≠ [] := by
  intro fuel
  induction fuel with
  | zero =>
    intro s cur hlen hex
    have hs : s = [] := List.length_eq_zero.mp (Nat.le_zero.mp hlen)
    subst hs
    rcases hex with ⟨c, hc, _⟩ | ⟨c, hc, hws⟩
    · cases hc
    · exact ⟨cur.reverse, by simp [splitlinesGo],
        pyStrip_ne_nil_of_mem (by simpa using hc) hws⟩
  | succ n ih =>
    intro s cur hlen hex
    cases s with
    | nil =>
      rcases hex with ⟨c, hc, _⟩ | ⟨c, hc, hws⟩
      · cases hc
      · exact ⟨cur.reverse, by simp [splitlinesGo],
          pyStrip_ne_nil_of_mem (by simpa using hc) hws⟩
    | cons d t =>
      by_cases hd : isLineBreak d = true
      · have hdws : isPyWs d = true := isPyWs_of_isLineBreak hd
        rw [splitlinesGo, if_pos hd]
        by_cases hrn : (d = '\r' && t.headD 'x' = '\n') = true
        · rw [if_pos hrn]
          have hdr : d = '\r' ∧ t.headD 'x' = '\n' := by simpa using hrn
          rcases t with _ | ⟨h1, t2⟩
          · simp only [List.headD_nil] at hdr
            exact absurd hdr.2 (by decide)
          · have h1n : h1 = '\n' := by simpa using hdr.2
            simp only [List.tail_cons]
            rcases hex with ⟨c, hc, hws⟩ | ⟨c, hc, hws⟩
            · have hct2 : c ∈ t2 := by
                rcases List.mem_cons.mp hc with rfl | hc'
                · exact absurd hdws (by simp [hws])
                · rcases List.mem_cons.mp hc' with rfl | hc''
                  · exact absurd (by simp [h1n, isPyWs, isLineBreak] : isPyWs c = true)
                      (by simp [hws])
                  · exact hc''
              have ht2ne : t2 ≠ [] := List.ne_nil_of_mem hct2
              rw [if_neg ht2ne]
              have hlen2 : t2.length ≤ n := by
                simp only [List.length_cons] at hlen; omega
              obtain ⟨ln, hln, hP⟩ := ih t2 [] hlen2 (.inl ⟨c, hct2, hws⟩)
              exact ⟨ln, .tail _ hln, hP⟩
            · refine ⟨cur.reverse, ?_, pyStrip_ne_nil_of_mem (by simpa using hc) hws⟩
              by_cases ht2 : t2 = [] <;> simp [ht2]
        · rw [if_neg hrn]
          rcases hex with ⟨c, hc, hws⟩ | ⟨c, hc, hws⟩
          · have hct : c ∈ t := by
              rcases List.mem_cons.mp hc with rfl | hc'
              · exact absurd hdws (by simp [hws])
              · exact hc'
            have htne : t ≠ [] := List.ne_nil_of_mem hct
            rw [if_neg htne]
            obtain ⟨ln, hln, hP⟩ := ih t [] (Nat.le_of_succ_le_succ hlen)
              (.inl ⟨c, hct, hws⟩)
            exact ⟨ln, .tail _ hln, hP⟩
          · refine ⟨cur.reverse, ?_, pyStrip_ne_nil_of_mem (by simpa using hc) hws⟩
            by_cases ht : t = [] <;> simp [ht]
      · rw [splitlinesGo, if_neg hd]
        refine ih t (d :: cur) (Nat.le_of_succ_le_succ hlen) ?_
        rcases hex with ⟨c, hc, hws⟩ | ⟨c, hc, hws⟩
        · rcases List.mem_cons.mp hc with rfl | hc'
          · exact .inr ⟨c, List.mem_cons_self c cur, hws⟩
          · exact .inl ⟨c, hc', hws⟩
        · exact .inr ⟨c, .tail _ hc, hws⟩

/-- A string that does not strip to empty yields, under `splitlines`, at
least one line that does not strip to empty. -/
theorem splitlines_exists_nonws {s : Str} (h : pyStrip s ≠ []) :
    ∃ ln ∈ splitlines s, pyStrip ln ≠ [] := by
  have hex : ∃ c ∈ s, isPyWs c = false := by
    by_contra hall
    push_neg at hall
    refine h (pyStrip_eq_nil_iff.mpr fun c hc => ?_)
    cases hb : isPyWs c
    · exact absurd hb (hall c hc)
    · rfl
  have hne : s ≠ [] := by
    rintro rfl
    obtain ⟨c, hc, _⟩ := hex
    cases hc
  rw [splitlines, if_neg hne]
  exact splitlinesGo_exists_nonws s.length s [] le_rfl (.inl hex)

/-- A line returned by the merchant loop passed the blacklist test, and a
blacklist-free line stays blacklist-free after truncation to 60 characters. -/
theorem merchantLoop_some :
    ∀ (lns : List Str) (r : Str), merchantLoop lns = some r →
      ∀ bad ∈ MERCHANT_BAD, isSubstr bad (upperL r) = false := by
  intro lns
  induction lns with
  | nil => intro r h; cases h
  | cons ln rest ih =>
    intro r h bad hbad
    rw [merchantLoop] at h
    by_cases hb : (MERCHANT_BAD.any fun bad => isSubstr bad (upperL ln)) = true
    · rw [if_pos hb] at h
      exact ih r h bad hbad
    · rw [if_neg hb] at h
      by_cases h3 : 3 ≤ ln.countP Char.isAlpha
      · rw [if_pos h3] at h
        have hr : r = ln.take 60 := (Option.some.injEq _ _ ▸ h).symm
        have hfalse : isSubstr bad (upperL ln) = false := by
          cases hx : isSubstr bad (upperL ln)
          · rfl
          · exact absurd (List.any_eq_true.mpr ⟨bad, hbad, hx⟩) hb
        subst hr
        cases hsub : isSubstr bad (upperL (ln.take 60))
        · rfl
        · exfalso
          have hinf : bad <:+: upperL (ln.take 60) := (isSubstr_iff_isInfix _ _).mp hsub
          rw [upperL, List.map_take] at hinf
          have htrans : bad <:+: upperL ln :=
            hinf.trans (List.take_prefix 60 (upperL ln)).isInfix
          rw [← isSubstr_iff_isInfix bad (upperL ln)] at htrans
          simp [hfalse] at htrans
      · rw [if_neg h3] at h
        exact ih r h bad hbad

/-- C10: the blacklist test in `guess_merchant` is substring-based: any line
whose uppercased form contains a blacklist entry anywhere (even inside a
longer word) is rejected, so a returned merchant line never contains a
blacklist entry as a substring of its uppercased form; concretely, the first
line CASHMERE HOUSE is rejected for containing CASH and EXCHANGE PLAZA for
containing CHANGE, so ACME STORE is returned. -/
theorem claim_C10_merchant_blacklist_is_substring_based (s r : Str) :
    (guess_merchant (.pstr s) = some r →
      ∀ bad ∈ MERCHANT_BAD, isSubstr bad (upperL r) = false) ∧
    guess_merchant (.pstr ("CASHMERE HOUSE\nEXCHANGE PLAZA\nACME STORE".toList)) =
      some ("ACME STORE".toList) := by
  constructor
  · intro h bad hbad
    simp only [guess_merchant, _safe_text] at h
    by_cases hstrip : pyStrip s = []
    · rw [if_pos hstrip] at h; cases h
    · rw [if_neg hstrip] at h
      have hlne : ((splitlines s).map pyStrip).filter (fun l => l ≠ []) ≠ [] := by
        obtain ⟨ln, hln, hP⟩ := splitlines_exists_nonws hstrip
        refine List.ne_nil_of_mem (a := pyStrip ln) ?_
        exact List.mem_filter.mpr ⟨List.mem_map_of_mem _ hln, by simpa using hP⟩
      rw [if_neg hlne] at h
      exact merchantLoop_some _ r h bad hbad
  · decide

/-- Witness for C10: the theorem applied to the concrete three-line receipt;
the returned line ACME STORE contains no blacklist entry, checked here for
the entry CASH. -/
theorem claim_C10_witness :
    isSubstr ("CASH".toList) (upperL ("ACME STORE".toList)) = false :=
  (claim_C10_merchant_blacklist_is_substring_based
      ("CASHMERE HOUSE\nEXCHANGE PLAZA\nACME STORE".toList) ("ACME STORE".toList)).1
    (claim_C10_merchant_blacklist_is_substring_based
      ("CASHMERE HOUSE\nEXCHANGE PLAZA\nACME STORE".toList) ("ACME STORE".toList)).2
    ("CASH".toList) (by decide)

/-- C4 counterexample: TOTAL 5.00 is non-whitespace, contains no line break
and contains alphabetic characters, yet `guess_merchant` returns `None`
rather than the first 60 characters of the trimmed text, because the
break-free text is processed as a single candidate line and rejected by the
blacklist. -/
theorem claim_C4_counterexample :
    (∀ c ∈ ("TOTAL 5.00".toList : Str), isLineBreak c = false) ∧
    pyStrip ("TOTAL 5.00".toList) ≠ [] ∧
    ("TOTAL 5.00".toList).any Char.isAlpha = true ∧
    guess_merchant (.pstr ("TOTAL 5.00".toList)) = none := by
  exact ⟨by decide, by decide, by decide, by decide⟩

/-- C4 amended: for a non-whitespace input without line breaks, `splitlines`
returns the whole text as its single line, so the claimed fallback branch is
never reached; the single trimmed line goes through the ordinary loop and is
returned truncated to 60 characters exactly when its uppercased form contains
no blacklist entry and it has at least 3 alphabetic characters, and `None` is
returned otherwise, regardless of whether the text contains an alphabetic
character. -/
theorem claim_C4_no_linebreak_goes_through_line_loop (s : Str)
    (hnb : ∀ c ∈ s, isLineBreak c = false) (hs : pyStrip s ≠ []) :
    guess_merchant (.pstr s) =
      if (MERCHANT_BAD.any fun bad => isSubstr bad (upperL (pyStrip s))) = true then none
      else if 3 ≤ (pyStrip s).countP Char.isAlpha then some ((pyStrip s).take 60)
      else none := by
  have hne : s ≠ [] := by rintro rfl; exact hs rfl
  simp only [guess_merchant, _safe_text, if_neg hs, splitlines_no_break hne hnb,
    List.map_cons, List.map_nil, List.filter, hs, ne_eq, not_false_iff]
  simp only [merchantLoop, List.take]
  rfl

theorem claim_C4_witness :
    guess_merchant (.pstr ("  ACME STORE LTD  ".toList)) =
      if (MERCHANT_BAD.any fun bad =>
            isSubstr bad (upperL (pyStrip ("  ACME STORE LTD  ".toList)))) = true then none
      else if 3 ≤ (pyStrip ("  ACME STORE LTD  ".toList)).countP Char.isAlpha then
        some ((pyStrip ("  ACME STORE LTD  ".toList)).take 60)
      else none :=
  claim_C4_no_linebreak_goes_through_line_loop ("  ACME STORE LTD  ".toList)
    (by decide) (by decide)

/-- C9: the four operations are total (they are plain functions of this
embedding) and return the designated absence values — `None`, the empty list,
`None` and the empty string — on every non-string input and on every string
that is empty or whitespace-only. -/
theorem claim_C9_total_on_degenerate_input (s : Str) (hws : pyStrip s = []) :
    (extract_date (.pstr s) = none ∧ extract_totals (.pstr s) = [] ∧
      guess_merchant (.pstr s) = none ∧ clean_ocr_text (.pstr s) = []) ∧
    (extract_date .other = none ∧ extract_totals .other = [] ∧
      guess_merchant .other = none ∧ clean_ocr_text .other = []) := by
  refine ⟨⟨?_, ?_, ?_, ?_⟩, by decide⟩
  · by_cases ht : upperL s = []
    · simp [extract_date, _safe_text, ht]
    · have hall : ∀ c ∈ upperL s, c.isDigit = false := by
        intro c hc
        rw [upperL, List.mem_map] at hc
        obtain ⟨c0, hc0, rfl⟩ := hc
        exact ws_toUpper_not_digit (pyStrip_eq_nil_iff.mp hws c0 hc0)
      simp [extract_date, _safe_text, ht, reSearch,
        searchScan_none tryDate1 (fun _ _ h => tryDate1_head_not_digit h) _ _ _ hall,
        searchScan_none tryDate2 (fun _ _ h => tryDate2_head_not_digit h) _ _ _ hall]
  · simp [extract_totals, _safe_text, hws]
  · simp [guess_merchant, _safe_text, hws]
  · simp [clean_ocr_text, hws]

theorem claim_C9_witness :
    extract_date (.pstr (" \t ".toList)) = none ∧
    extract_totals (.pstr (" \t ".toList)) = [] ∧
    guess_merchant (.pstr (" \t ".toList)) = none ∧
    clean_ocr_text (.pstr (" \t ".toList)) = [] :=
  (claim_C9_total_on_degenerate_input (" \t ".toList) (by decide)).1

/-- Values contributed by one line in phase 1 survived the time-shape filter. -/
theorem timeish_false_of_mem_lineMoneyVals {ln v : Str} (h : v ∈ lineMoneyVals ln) :
    timeish v = false := by
  have := (List.mem_filter.mp h).2
  simpa using this

/-- Phase-1 candidates are never time-shaped. -/
theorem timeish_false_of_mem_phase1 {raw v : Str} (h : v ∈ phase1Candidates raw) :
    timeish v = false := by
  simp only [phase1Candidates, List.mem_flatMap] at h
  obtain ⟨hint, _, ln, _, h3⟩ := h
  split at h3
  · exact timeish_false_of_mem_lineMoneyVals h3
  · cases h3

/-- Phase-2 candidates are never time-shaped. -/
theorem timeish_false_of_mem_phase2 {raw v : Str} (h : v ∈ phase2Candidates raw) :
    timeish v = false := by
  have := (List.mem_filter.mp h).2
  simpa using this

/-- C7: `extract_totals` returns a duplicate-free list equal to the
first-occurrence deduplication of the phase that supplied it (phase 1's
hint scan when it produced anything, else phase 2's whole-text scan), no
returned value is time-shaped, and on the clock-stamp example the line 09.21
contributes nothing. -/
theorem claim_C7_totals_dedup_order_no_time_shape (v : PyVal) :
    (extract_totals v).Nodup ∧
    extract_totals v =
      (if pyStrip (_safe_text v) = [] then []
       else if phase1Candidates (_safe_text v) = [] then
         _dedup_preserve_order (phase2Candidates (_safe_text v))
       else _dedup_preserve_order (phase1Candidates (_safe_text v))) ∧
    ((extract_totals v).all fun x => !timeish x) = true ∧
    "09.21".toList ∉ extract_totals (.pstr ("09.21\nTOTAL 12.34".toList)) := by
  refine ⟨?_, ?_, ?_, by decide⟩
  · simp only [extract_totals]
    split
    · exact List.nodup_nil
    · split
      · exact nodup_dedup _
      · exact nodup_dedup _
  · simp only [extract_totals, dedup_eq_nil_iff]
  · simp only [extract_totals]
    split
    · rfl
    · split
      · refine List.all_eq_true.mpr fun x hx => ?_
        simp [timeish_false_of_mem_phase2 (mem_dedup hx)]
      · refine List.all_eq_true.mpr fun x hx => ?_
        simp [timeish_false_of_mem_phase1 (mem_dedup hx)]

/-- C5: when phase 1 (the hint-line scan, hints in priority order, lines in
original order within a hint) finds at least one candidate, `extract_totals`
returns exactly its deduplication and never reaches the whole-text scan; the
four-line example returns 45.50 (the ROUNDED TOTAL match) first, without
duplicates (4.50 is absent because the time-shape filter removes it). -/
theorem claim_C5_hint_priority_no_fall_through (raw : Str)
    (h0 : pyStrip raw ≠ []) (h1 : phase1Candidates raw ≠ []) :
    extract_totals (.pstr raw) = _dedup_preserve_order (phase1Candidates raw) ∧
    extract_totals
        (.pstr ("SUBTOTAL 45.00\nROUNDED TOTAL 45.50\nCASH 50.00\nCHANGE 4.50".toList)) =
      ["45.50".toList, "45.00".toList, "50.00".toList] := by
  refine ⟨?_, by decide⟩
  simp only [extract_totals, _safe_text, if_neg h0]
  rw [if_neg]
  exact fun hq => h1 (dedup_eq_nil_iff.mp hq)

theorem claim_C5_witness :
    extract_totals
        (.pstr ("SUBTOTAL 45.00\nROUNDED TOTAL 45.50\nCASH 50.00\nCHANGE 4.50".toList)) =
      _dedup_preserve_order (phase1Candidates
        ("SUBTOTAL 45.00\nROUNDED TOTAL 45.50\nCASH 50.00\nCHANGE 4.50".toList)) :=
  (claim_C5_hint_priority_no_fall_through
      ("SUBTOTAL 45.00\nROUNDED TOTAL 45.50\nCASH 50.00\nCHANGE 4.50".toList)
      (by decide) (by decide)).1

/-- C2: the normalizer is not idempotent.  On the input 1:23 ;45 the first
pass removes the space before the semicolon (the `\s+([,.;:])` rule), which
exposes the time-stamp pattern, and a second pass then rewrites the semicolon
to a colon: re-applying `clean_ocr_text` to its own output changes it. -/
theorem claim_C2_clean_ocr_text_not_idempotent :
    clean_ocr_text (.pstr ("1:23 ;45".toList)) = "1:23;45".toList ∧
    clean_ocr_text (.pstr ("1:23;45".toList)) = "1:23:45".toList ∧
    clean_ocr_text (.pstr (clean_ocr_text (.pstr ("1:23 ;45".toList)))) ≠
      clean_ocr_text (.pstr ("1:23 ;45".toList)) := by
  exact ⟨by decide, by decide, by decide⟩

/-- C6: with all three evaluations succeeding, the selector is the fold of
the strict margin rule over baseline, then clahe, then denoise, in that fixed
order; consequently, for any margin at least 0, when neither candidate's
score strictly exceeds the baseline score plus the margin the baseline is
returned, and in particular candidates whose scores merely equal the
baseline's never displace it. -/
theorem claim_C6_auto_is_baseline_biased_order_stable {E : Type}
    (run : Str → Except E Outcome) (margin : ℚ) (b c d : Outcome)
    (hb : run ("none".toList) = .ok b) (hc : run ("clahe".toList) = .ok c)
    (hd : run ("denoise".toList) = .ok d) :
    choose_best_auto run margin =
      .ok (if (if b.score + margin < c.score then c else b).score + margin < d.score
           then d else if b.score + margin < c.score then c else b) ∧
    (0 ≤ margin → c.score ≤ b.score + margin → d.score ≤ b.score + margin →
      choose_best_auto run margin = .ok b) ∧
    (0 ≤ margin → c.score = b.score → d.score = b.score →
      choose_best_auto run margin = .ok b) := by
  have key : choose_best_auto run margin =
      .ok (if (if b.score + margin < c.score then c else b).score + margin < d.score
           then d else if b.score + margin < c.score then c else b) := by
    simp only [choose_best_auto, hb, candidate_modes_for_auto]
    rw [autoFold, if_pos rfl]
    rw [autoFold, if_neg (by decide)]
    simp only [hc]
    rw [autoFold, if_neg (by decide)]
    simp only [hd]
    rw [autoFold]
  refine ⟨key, ?_, ?_⟩
  · intro _ h1 h2
    rw [key, if_neg (by rw [if_neg (not_lt.mpr h1)]; exact not_lt.mpr h2),
      if_neg (not_lt.mpr h1)]
  · intro hm h1 h2
    have h1' : c.score ≤ b.score + margin := h1 ▸ le_add_of_nonneg_right hm
    have h2' : d.score ≤ b.score + margin := h2 ▸ le_add_of_nonneg_right hm
    rw [key, if_neg (by rw [if_neg (not_lt.mpr h1')]; exact not_lt.mpr h2'),
      if_neg (not_lt.mpr h1')]

/-- A run in which every whitelisted mode succeeds with the same score. -/
def runAllTie : Str → Except Unit Outcome := fun m =>
  .ok { mode := m, text := "RECEIPT".toList, conf := 1, score := 1 }

theorem claim_C6_witness :
    choose_best_auto runAllTie 0 =
      .ok { mode := "none".toList, text := "RECEIPT".toList, conf := 1, score := 1 } :=
  (claim_C6_auto_is_baseline_biased_order_stable runAllTie 0
      { mode := "none".toList, text := "RECEIPT".toList, conf := 1, score := 1 }
      { mode := "clahe".toList, text := "RECEIPT".toList, conf := 1, score := 1 }
      { mode := "denoise".toList, text := "RECEIPT".toList, conf := 1, score := 1 }
      rfl rfl rfl).2.2 (by decide) (by decide) (by decide)

/-- C3 counterexample: a run in which the baseline succeeds and both
candidate evaluations raise; `choose_best_auto` propagates the exception
instead of returning the baseline outcome. -/
theorem claim_C3_counterexample :
    runCandidatesFail ("none".toList) = .ok baselineOutcome ∧
    runCandidatesFail ("clahe".toList) = .error () ∧
    runCandidatesFail ("denoise".toList) = .error () ∧
    choose_best_auto runCandidatesFail (1 / 100) = .error () := by
  exact ⟨rfl, rfl, rfl, rfl⟩

/-- C3 amended: when the baseline evaluation (mode none) succeeds but the
evaluation of every non-baseline candidate mode (clahe, denoise) raises,
`choose_best_auto` does not return the baseline outcome: it has no handler
around the candidate evaluations, so the first candidate evaluation's
(clahe's) exception propagates to the caller. -/
theorem claim_C3_all_candidate_failures_propagate {E : Type}
    (run : Str → Except E Outcome) (margin : ℚ) (b : Outcome) (e1 e2 : E)
    (hb : run ("none".toList) = .ok b)
    (hc : run ("clahe".toList) = .error e1)
    (_hd : run ("denoise".toList) = .error e2) :
    choose_best_auto run margin = .error e1 := by
  simp only [choose_best_auto, hb, candidate_modes_for_auto]
  rw [autoFold, if_pos rfl]
  rw [autoFold, if_neg (by decide)]
  simp only [hc]

theorem claim_C3_witness :
    choose_best_auto runCandidatesFail (1 / 100) = .error () :=
  claim_C3_all_candidate_failures_propagate runCandidatesFail (1 / 100) baselineOutcome
    () () rfl rfl rfl

/-- C8: the score formulas and their nonnegativity.  `mean_conf` is the
arithmetic mean of the confidences (0 when there are none);
`text_quality_score` is alnum-density plus capped length on the normalized
copy (0 when that copy is empty); `blended_score` is the 0.6/0.4 blend; and
all three are nonnegative whenever the confidences are. -/
theorem claim_C8_score_formulas_and_nonnegativity
    (results : List ℚ) (text : Str) (conf : ℚ) :
    mean_conf [] = 0 ∧
    (results ≠ [] → mean_conf results = results.sum / (results.length : ℚ)) ∧
    (normalize_text text = [] → text_quality_score text = 0) ∧
    (normalize_text text ≠ [] →
      text_quality_score text =
        ((normalize_text text).countP Char.isAlphanum : ℚ) /
            ((normalize_text text).length : ℚ) +
          ((min (normalize_text text).length 80 : ℕ) : ℚ) / 80) ∧
    blended_score conf text = 6 / 10 * conf + 4 / 10 * text_quality_score text ∧
    ((∀ x ∈ results, 0 ≤ x) → 0 ≤ mean_conf results) ∧
    0 ≤ text_quality_score text ∧
    (0 ≤ conf → 0 ≤ blended_score conf text) := by
  have hq : 0 ≤ text_quality_score text := by
    rw [text_quality_score]
    split
    · exact le_refl 0
    · have h80 : (0 : ℚ) ≤ 80 := by norm_num
      exact add_nonneg (div_nonneg (Nat.cast_nonneg _) (Nat.cast_nonneg _))
        (div_nonneg (Nat.cast_nonneg _) h80)
  refine ⟨rfl, ?_, ?_, ?_, rfl, ?_, hq, ?_⟩
  · intro h
    rw [mean_conf, if_neg h]
    have hlen : max results.length 1 = results.length :=
      Nat.max_eq_left (Nat.one_le_iff_ne_zero.mpr fun h0 =>
        h (List.length_eq_zero.mp h0))
    rw [hlen]
  · intro h
    rw [text_quality_score, if_pos h]
  · intro h
    rw [text_quality_score, if_neg h]
    have hlen : max (normalize_text text).length 1 = (normalize_text text).length :=
      Nat.max_eq_left (Nat.one_le_iff_ne_zero.mpr fun h0 =>
        h (List.length_eq_zero.mp h0))
    rw [hlen]
  · intro h
    rw [mean_conf]
    split
    · exact le_refl 0
    · exact div_nonneg (List.sum_nonneg h) (Nat.cast_nonneg _)
  · intro h
    have : 0 ≤ 6 / 10 * conf := by positivity
    have h4 : 0 ≤ 4 / 10 * text_quality_score text := by
      have : (0:ℚ) ≤ 4 / 10 := by norm_num
      exact mul_nonneg this hq
    rw [blended_score]
    exact add_nonneg this h4

theorem claim_C8_witness :
    mean_conf ([1, 3] : List ℚ) = ([1, 3] : List ℚ).sum / (([1, 3] : List ℚ).length : ℚ) ∧
    0 ≤ mean_conf ([1, 3] : List ℚ) ∧
    text_quality_score ("".toList) = 0 ∧
    text_quality_score ("OK 12".toList) =
      ((normalize_text ("OK 12".toList)).countP Char.isAlphanum : ℚ) /
          ((normalize_text ("OK 12".toList)).length : ℚ) +
        ((min (normalize_text ("OK 12".toList)).length 80 : ℕ) : ℚ) / 80 ∧
    0 ≤ blended_score 1 ("OK 12".toList) :=
  ⟨(claim_C8_score_formulas_and_nonnegativity [1, 3] ("OK 12".toList) 1).2.1
      (by decide),
   (claim_C8_score_formulas_and_nonnegativity [1, 3] ("OK 12".toList) 1).2.2.2.2.2.1
      (by decide),
   (claim_C8_score_formulas_and_nonnegativity [] ("".toList) 0).2.2.1 (by decide),
   (claim_C8_score_formulas_and_nonnegativity [1, 3] ("OK 12".toList) 1).2.2.2.1
      (by decide),
   (claim_C8_score_formulas_and_nonnegativity [1, 3] ("OK 12".toList) 1).2.2.2.2.2.2.2
      (by decide)⟩
